import Mathlib

/-!
Verification of pg_pathman's transaction/lock handling (`src/xact_handling.c`)
and shared-state declarations (`src/pathman.h`) against its specification.

The C code runs on top of PostgreSQL's lock manager.  We embed the lock
manager shallowly: a lock state is a multiset of grants (session, lock tag,
lock mode); the multiplicity of a grant is the reference count the local
lock table keeps (`nLocks`).  `LockAcquire` with `dontWait = true` returns
`LOCKACQUIRE_ALREADY_HELD` when the session already holds the very same
mode on the tag (incrementing the count), succeeds when no *other* session
holds a conflicting mode, and reports `LOCKACQUIRE_NOT_AVAIL` otherwise.
`LockRelease` decrements the count.  Lock modes and the conflict matrix are
PostgreSQL's standard table (`storage/lock.h`, `lock.c`).
-/

namespace PgPathman

/- Object identifiers (PostgreSQL `Oid`), session (backend) identifiers and
lock modes (PostgreSQL `LOCKMODE`, numeric levels 0..8) are all embedded as
plain natural numbers. -/

/-- `InvalidOid` is the zero object identifier. -/
def InvalidOid : Nat := 0

def NoLock : Nat := 0
def AccessShareLock : Nat := 1
def RowShareLock : Nat := 2
def RowExclusiveLock : Nat := 3
def ShareUpdateExclusiveLock : Nat := 4
def ShareLock : Nat := 5
def ShareRowExclusiveLock : Nat := 6
def ExclusiveLock : Nat := 7
def AccessExclusiveLock : Nat := 8

/-- PostgreSQL's lock conflict matrix (`LockConflicts` in `lock.c`):
`lockConflicts m1 m2 = true` iff a held lock of mode `m2` blocks a request
for mode `m1` on the same lockable object.  The matrix is symmetric. -/
def lockConflicts (m1 m2 : Nat) : Bool :=
  match m1 with
  | 1 => m2 == 8
  | 2 => m2 == 7 || m2 == 8
  | 3 => m2 == 5 || m2 == 6 || m2 == 7 || m2 == 8
  | 4 => m2 == 4 || m2 == 5 || m2 == 6 || m2 == 7 || m2 == 8
  | 5 => m2 == 3 || m2 == 4 || m2 == 6 || m2 == 7 || m2 == 8
  | 6 => m2 == 3 || m2 == 4 || m2 == 5 || m2 == 6 || m2 == 7 || m2 == 8
  | 7 => m2 == 2 || m2 == 3 || m2 == 4 || m2 == 5 || m2 == 6 || m2 == 7 || m2 == 8
  | 8 => m2 == 1 || m2 == 2 || m2 == 3 || m2 == 4 || m2 == 5 || m2 == 6 || m2 == 7 || m2 == 8
  | _ => false

/-- A relation lock tag: database id and relation id
(`SET_LOCKTAG_RELATION`). -/
structure LockTag where
  dbid : Nat
  relid : Nat
deriving DecidableEq, Repr

/-- One grant record: a session holds one reference of mode `.2.2` on tag
`.2.1`. -/
abbrev Grant := Nat × LockTag × Nat

/-- The lock manager's state: a multiset of grants, represented as a list
(duplicates encode the local reference count `nLocks`). -/
structure LockState where
  grants : List Grant
deriving DecidableEq, Repr

/-- The state with no locks held. -/
def emptyLockState : LockState := ⟨[]⟩

/-- Reference count session `s` holds of mode `m` on `tag`. -/
def holdsCount (st : LockState) (s : Nat) (tag : LockTag) (m : Nat) : Nat :=
  st.grants.count (s, tag, m)

/-- Does session `s` hold mode `m` on `tag` (count positive)? -/
def holds (st : LockState) (s : Nat) (tag : LockTag) (m : Nat) : Bool :=
  0 < holdsCount st s tag m

/-- Does some session other than `s` hold a mode on `tag` conflicting with a
request for mode `m`? -/
def conflictingHeldByOther (st : LockState) (s : Nat) (tag : LockTag)
    (m : Nat) : Bool :=
  st.grants.any (fun g => g.1 != s && g.2.1 == tag && lockConflicts m g.2.2)

/-- Add one grant reference. -/
def addGrant (st : LockState) (s : Nat) (tag : LockTag) (m : Nat) : LockState :=
  ⟨(s, tag, m) :: st.grants⟩

/-- `LockRelease`: drop one reference of `(s, tag, m)`. -/
def lockRelease (st : LockState) (s : Nat) (tag : LockTag) (m : Nat) : LockState :=
  ⟨st.grants.erase (s, tag, m)⟩

/-- `LockAcquireResult` (PostgreSQL `lock.h`). -/
inductive LockAcquireResult where
  | LOCKACQUIRE_NOT_AVAIL
  | LOCKACQUIRE_OK
  | LOCKACQUIRE_ALREADY_HELD
deriving DecidableEq, Repr

open LockAcquireResult

/-- `LockAcquire(tag, mode, sessionLock = false, dontWait = true)` for
session `s`: already-held modes are reference-counted; otherwise the
request succeeds exactly when no other session holds a conflicting mode
(a conditional request never waits). -/
def lockAcquireDontWait (st : LockState) (s : Nat) (tag : LockTag)
    (m : Nat) : LockAcquireResult × LockState :=
  if holds st s tag m then
    (LOCKACQUIRE_ALREADY_HELD, addGrant st s tag m)
  else if conflictingHeldByOther st s tag m then
    (LOCKACQUIRE_NOT_AVAIL, st)
  else
    (LOCKACQUIRE_OK, addGrant st s tag m)

/-- A call into the lock manager, recorded for the instrumentation traces:
an acquire (with its `dontWait` flag) or a release. -/
inductive LockCall where
  | acq (tag : LockTag) (m : Nat) (dontWait : Bool)
  | rel (tag : LockTag) (m : Nat)
deriving DecidableEq, Repr

/-- Result of an embedded probe: returned boolean, resulting lock state and
the trace of lock-manager calls performed. -/
structure ProbeResult where
  ret : Bool
  st : LockState
  calls : List LockCall
deriving Repr

/-- `SetLocktagRelationOid` (`xact_handling.c:145-156`): the lock tag uses
database id `InvalidOid` for a shared catalog relation and the session's
`MyDatabaseId` otherwise.  `isShared` embeds the host catalog predicate
`IsSharedRelation`. -/
def SetLocktagRelationOid (isShared : Nat → Bool) (myDatabaseId : Nat)
    (relid : Nat) : LockTag :=
  ⟨if isShared relid then InvalidOid else myDatabaseId, relid⟩

/-- `do_we_hold_the_lock` (`xact_handling.c:117-139`): conditionally acquire
`lockmode`; `ALREADY_HELD` means the transaction held it, so release the
extra reference and report `true`; a fresh `OK` acquisition is released
again and reports `false`; a failed conditional acquire reports `false`. -/
def do_we_hold_the_lock (isShared : Nat → Bool) (myDatabaseId : Nat)
    (st : LockState) (s : Nat) (relid : Nat) (lockmode : Nat) :
    ProbeResult :=
  let tag := SetLocktagRelationOid isShared myDatabaseId relid
  match lockAcquireDontWait st s tag lockmode with
  | (LOCKACQUIRE_ALREADY_HELD, st1) =>
      ⟨true, lockRelease st1 s tag lockmode,
        [LockCall.acq tag lockmode true, LockCall.rel tag lockmode]⟩
  | (LOCKACQUIRE_OK, st1) =>
      ⟨false, lockRelease st1 s tag lockmode,
        [LockCall.acq tag lockmode true, LockCall.rel tag lockmode]⟩
  | (LOCKACQUIRE_NOT_AVAIL, st1) =>
      ⟨false, st1, [LockCall.acq tag lockmode true]⟩

/-- The lock modes probed by `xact_bgw_conflicting_lock_exists`'s loop
`for (lockmode = ShareUpdateExclusiveLock; lockmode <= AccessExclusiveLock;
lockmode++)`. -/
def bgwProbeModes : List Nat :=
  List.range' ShareUpdateExclusiveLock
    (AccessExclusiveLock + 1 - ShareUpdateExclusiveLock)

/-- The loop body of `xact_bgw_conflicting_lock_exists`, threading the lock
state through the successive `do_we_hold_the_lock` probes. -/
def bgwLoop (isShared : Nat → Bool) (myDatabaseId : Nat) (s : Nat)
    (relid : Nat) : LockState → List Nat → ProbeResult
  | st, [] => ⟨false, st, []⟩
  | st, m :: ms =>
      let r := do_we_hold_the_lock isShared myDatabaseId st s relid m
      if r.ret then ⟨true, r.st, r.calls⟩
      else
        let rest := bgwLoop isShared myDatabaseId s relid r.st ms
        ⟨rest.ret, rest.st, r.calls ++ rest.calls⟩

/-- `xact_bgw_conflicting_lock_exists` (`xact_handling.c:65-80`): probe each
lock mode from `ShareUpdateExclusiveLock` to `AccessExclusiveLock`,
returning `true` as soon as one is found to be held. -/
def xact_bgw_conflicting_lock_exists (isShared : Nat → Bool)
    (myDatabaseId : Nat) (st : LockState) (s : Nat) (relid : Nat) :
    ProbeResult :=
  bgwLoop isShared myDatabaseId s relid st bgwProbeModes

/-- `ConditionalLockRelationOid(relid, lockmode)`: non-blocking acquire via
the relation lock tag; returns `false` only when the lock was not
acquired. -/
def ConditionalLockRelationOid (isShared : Nat → Bool) (myDatabaseId : Nat)
    (st : LockState) (s : Nat) (relid : Nat) (lockmode : Nat) :
    Bool × LockState :=
  let tag := SetLocktagRelationOid isShared myDatabaseId relid
  match lockAcquireDontWait st s tag lockmode with
  | (LOCKACQUIRE_NOT_AVAIL, st1) => (false, st1)
  | (_, st1) => (true, st1)

/-- `UnlockRelationOid(relid, lockmode)`. -/
def UnlockRelationOid (isShared : Nat → Bool) (myDatabaseId : Nat)
    (st : LockState) (s : Nat) (relid : Nat) (lockmode : Nat) :
    LockState :=
  lockRelease st s (SetLocktagRelationOid isShared myDatabaseId relid) lockmode

/-- `xact_is_table_being_modified` (`xact_handling.c:86-100`): try a
conditional `ExclusiveLock`; on success release it and report `false`,
otherwise report `true`. -/
def xact_is_table_being_modified (isShared : Nat → Bool) (myDatabaseId : Nat)
    (st : LockState) (s : Nat) (relid : Nat) : ProbeResult :=
  let tag := SetLocktagRelationOid isShared myDatabaseId relid
  let r := ConditionalLockRelationOid isShared myDatabaseId st s relid ExclusiveLock
  if r.1 then
    ⟨false, UnlockRelationOid isShared myDatabaseId r.2 s relid ExclusiveLock,
      [LockCall.acq tag ExclusiveLock true, LockCall.rel tag ExclusiveLock]⟩
  else
    ⟨true, r.2, [LockCall.acq tag ExclusiveLock true]⟩

/-- PostgreSQL isolation levels (`access/xact.h`). -/
def XACT_READ_UNCOMMITTED : Nat := 0
def XACT_READ_COMMITTED : Nat := 1
def XACT_REPEATABLE_READ : Nat := 2
def XACT_SERIALIZABLE : Nat := 3

/-- `xact_is_level_read_committed` (`xact_handling.c:105-112`): true when
`XactIsoLevel <= XACT_READ_COMMITTED`. -/
def xact_is_level_read_committed (xactIsoLevel : Nat) : Bool :=
  if xactIsoLevel ≤ XACT_READ_COMMITTED then true else false

/-- The lock mode taken by `xact_lock_partitioned_rel` / released by
`xact_unlock_partitioned_rel` (`xact_handling.c:27-41`). -/
def xact_lock_partitioned_rel_mode : Nat := ShareUpdateExclusiveLock

/-- The lock mode taken by `xact_lock_rel_data` / released by
`xact_unlock_rel_data` (`xact_handling.c:46-59`). -/
def xact_lock_rel_data_mode : Nat := ShareLock

/-- `xact_lock_partitioned_rel` (`xact_handling.c:27-32`): blocking
`LockRelationOid(relid, ShareUpdateExclusiveLock)`; the state effect once
granted (the granting condition is `LockStep`'s side condition). -/
def xact_lock_partitioned_rel (isShared : Nat → Bool) (myDatabaseId : Nat)
    (st : LockState) (s : Nat) (relid : Nat) : LockState :=
  addGrant st s (SetLocktagRelationOid isShared myDatabaseId relid)
    ShareUpdateExclusiveLock

/-- `xact_unlock_partitioned_rel` (`xact_handling.c:37-41`). -/
def xact_unlock_partitioned_rel (isShared : Nat → Bool) (myDatabaseId : Nat)
    (st : LockState) (s : Nat) (relid : Nat) : LockState :=
  UnlockRelationOid isShared myDatabaseId st s relid ShareUpdateExclusiveLock

/-- `xact_lock_rel_data` (`xact_handling.c:46-50`): blocking
`LockRelationOid(relid, ShareLock)`. -/
def xact_lock_rel_data (isShared : Nat → Bool) (myDatabaseId : Nat)
    (st : LockState) (s : Nat) (relid : Nat) : LockState :=
  addGrant st s (SetLocktagRelationOid isShared myDatabaseId relid) ShareLock

/-- `xact_unlock_rel_data` (`xact_handling.c:55-59`). -/
def xact_unlock_rel_data (isShared : Nat → Bool) (myDatabaseId : Nat)
    (st : LockState) (s : Nat) (relid : Nat) : LockState :=
  UnlockRelationOid isShared myDatabaseId st s relid ShareLock

/-- Modes of the acquire calls in a trace, in order. -/
def acqModes : List LockCall → List Nat
  | [] => []
  | LockCall.acq _ m _ :: rest => m :: acqModes rest
  | LockCall.rel _ _ :: rest => acqModes rest

/-- Do all acquire calls of a trace carry `dontWait = true`? -/
def allAcqDontWait (calls : List LockCall) : Bool :=
  calls.all fun c =>
    match c with
    | LockCall.acq _ _ dw => dw
    | LockCall.rel _ _ => true

/-! ### Basic lemmas about the lock-manager embedding -/

theorem lockRelease_addGrant (st : LockState) (s : Nat) (tag : LockTag)
    (m : Nat) : lockRelease (addGrant st s tag m) s tag m = st := by
  simp [lockRelease, addGrant]

theorem do_we_hold_st (isShared : Nat → Bool) (db : Nat) (st : LockState)
    (s : Nat) (relid : Nat) (m : Nat) :
    (do_we_hold_the_lock isShared db st s relid m).st = st := by
  unfold do_we_hold_the_lock lockAcquireDontWait
  by_cases h1 : holds st s (SetLocktagRelationOid isShared db relid) m
  · simp [h1, lockRelease_addGrant]
  · by_cases h2 :
        conflictingHeldByOther st s (SetLocktagRelationOid isShared db relid) m
    · simp [h1, h2]
    · simp [h1, h2, lockRelease_addGrant]

theorem do_we_hold_ret (isShared : Nat → Bool) (db : Nat) (st : LockState)
    (s : Nat) (relid : Nat) (m : Nat) :
    (do_we_hold_the_lock isShared db st s relid m).ret =
      holds st s (SetLocktagRelationOid isShared db relid) m := by
  unfold do_we_hold_the_lock lockAcquireDontWait
  by_cases h1 : holds st s (SetLocktagRelationOid isShared db relid) m
  · simp [h1]
  · by_cases h2 :
        conflictingHeldByOther st s (SetLocktagRelationOid isShared db relid) m
    · simp [h1, h2]
    · simp [h1, h2]

theorem do_we_hold_calls (isShared : Nat → Bool) (db : Nat) (st : LockState)
    (s : Nat) (relid : Nat) (m : Nat) :
    acqModes (do_we_hold_the_lock isShared db st s relid m).calls = [m] ∧
      allAcqDontWait (do_we_hold_the_lock isShared db st s relid m).calls = true := by
  unfold do_we_hold_the_lock lockAcquireDontWait
  by_cases h1 : holds st s (SetLocktagRelationOid isShared db relid) m
  · simp [h1, acqModes, allAcqDontWait]
  · by_cases h2 :
        conflictingHeldByOther st s (SetLocktagRelationOid isShared db relid) m
    · simp [h1, h2, acqModes, allAcqDontWait]
    · simp [h1, h2, acqModes, allAcqDontWait]

theorem bgwLoop_st (isShared : Nat → Bool) (db : Nat) (s : Nat)
    (relid : Nat) (st : LockState) (modes : List Nat) :
    (bgwLoop isShared db s relid st modes).st = st := by
  induction modes generalizing st with
  | nil => rfl
  | cons m ms ih =>
      unfold bgwLoop
      by_cases h : (do_we_hold_the_lock isShared db st s relid m).ret
      · simp [h, do_we_hold_st]
      · simp [h, do_we_hold_st, ih]

theorem bgwLoop_ret (isShared : Nat → Bool) (db : Nat) (s : Nat)
    (relid : Nat) (st : LockState) (modes : List Nat) :
    (bgwLoop isShared db s relid st modes).ret =
      modes.any (fun m => holds st s (SetLocktagRelationOid isShared db relid) m) := by
  induction modes generalizing st with
  | nil => rfl
  | cons m ms ih =>
      have hm := do_we_hold_ret isShared db st s relid m
      by_cases h : (do_we_hold_the_lock isShared db st s relid m).ret = true
      · rw [h] at hm
        simp [bgwLoop, h, List.any_cons, ← hm]
      · rw [Bool.not_eq_true] at h
        rw [h] at hm
        simp [bgwLoop, h, List.any_cons, ← hm, do_we_hold_st, ih]

theorem bgwProbeModes_eq : bgwProbeModes = [4, 5, 6, 7, 8] := by decide

/-- Claim C1: `xact_bgw_conflicting_lock_exists(relid)` returns `true` iff the
current transaction holds a lock on the relation at some mode between
`ShareUpdateExclusiveLock` and `AccessExclusiveLock` inclusive, and `false`
only when no such mode is held. -/
theorem xact_bgw_conflicting_lock_exists_iff (isShared : Nat → Bool) (db : Nat)
    (st : LockState) (s : Nat) (relid : Nat) :
    (xact_bgw_conflicting_lock_exists isShared db st s relid).ret = true ↔
      ∃ m : Nat, ShareUpdateExclusiveLock ≤ m ∧ m ≤ AccessExclusiveLock ∧
        holds st s (SetLocktagRelationOid isShared db relid) m = true := by
  unfold xact_bgw_conflicting_lock_exists
  rw [bgwLoop_ret, List.any_eq_true, bgwProbeModes_eq]
  constructor
  · rintro ⟨m, hm, hh⟩
    refine ⟨m, ?_, ?_, hh⟩ <;>
      · simp only [List.mem_cons, List.not_mem_nil, or_false] at hm
        simp only [ShareUpdateExclusiveLock, AccessExclusiveLock]
        omega
  · rintro ⟨m, h1, h2, hh⟩
    refine ⟨m, ?_, hh⟩
    simp only [ShareUpdateExclusiveLock] at h1
    simp only [AccessExclusiveLock] at h2
    simp only [List.mem_cons, List.not_mem_nil, or_false]
    omega

/-- Claim C2: the probe `xact_bgw_conflicting_lock_exists` leaves the lock
state (all sessions' held locks with their reference counts) exactly as it
was before the call, whatever locks were previously acquired. -/
theorem xact_bgw_conflicting_lock_exists_preserves_state (isShared : Nat → Bool)
    (db : Nat) (st : LockState) (s : Nat) (relid : Nat) :
    (xact_bgw_conflicting_lock_exists isShared db st s relid).st = st :=
  bgwLoop_st isShared db s relid st bgwProbeModes

/-! ### Trace lemmas (non-blocking probes) -/

theorem acqModes_append (a b : List LockCall) :
    acqModes (a ++ b) = acqModes a ++ acqModes b := by
  induction a with
  | nil => rfl
  | cons c rest ih => cases c <;> simp [acqModes, ih]

theorem allAcqDontWait_append (a b : List LockCall) :
    allAcqDontWait (a ++ b) = (allAcqDontWait a && allAcqDontWait b) := by
  simp [allAcqDontWait, List.all_append]

theorem bgwLoop_calls (isShared : Nat → Bool) (db : Nat) (s : Nat)
    (relid : Nat) (st : LockState) (modes : List Nat) :
    List.Sublist (acqModes (bgwLoop isShared db s relid st modes).calls) modes
    ∧ allAcqDontWait (bgwLoop isShared db s relid st modes).calls = true := by
  induction modes generalizing st with
  | nil => exact ⟨List.nil_sublist _, rfl⟩
  | cons m ms ih =>
      have hc := do_we_hold_calls isShared db st s relid m
      by_cases h : (do_we_hold_the_lock isShared db st s relid m).ret = true
      · have hcalls : (bgwLoop isShared db s relid st (m :: ms)).calls
            = (do_we_hold_the_lock isShared db st s relid m).calls := by
          simp [bgwLoop, h]
        rw [hcalls, hc.1]
        exact ⟨List.Sublist.cons₂ m (List.nil_sublist ms), hc.2⟩
      · rw [Bool.not_eq_true] at h
        have hcalls : (bgwLoop isShared db s relid st (m :: ms)).calls
            = (do_we_hold_the_lock isShared db st s relid m).calls
              ++ (bgwLoop isShared db s relid
                    (do_we_hold_the_lock isShared db st s relid m).st ms).calls := by
          simp [bgwLoop, h]
        rw [hcalls, acqModes_append, allAcqDontWait_append, hc.1]
        rw [do_we_hold_st]
        exact ⟨List.Sublist.cons₂ m (ih st).1, by rw [hc.2, (ih st).2]; rfl⟩

theorem bgwProbeModes_nodup : bgwProbeModes.Nodup := by decide

/-- Claim C8: both probes only ever issue conditional (`dontWait`) lock
acquisitions — they can never suspend the calling process — and the probe
loop of `xact_bgw_conflicting_lock_exists` visits each strength level at
most once (its acquired-mode trace is a duplicate-free sublist of the loop's
mode list), while `xact_is_table_being_modified` performs a single
conditional acquisition. -/
theorem probes_are_nonblocking (isShared : Nat → Bool) (db : Nat)
    (st : LockState) (s : Nat) (relid : Nat) :
    allAcqDontWait (xact_bgw_conflicting_lock_exists isShared db st s relid).calls = true
    ∧ List.Sublist
        (acqModes (xact_bgw_conflicting_lock_exists isShared db st s relid).calls)
        bgwProbeModes
    ∧ (acqModes (xact_bgw_conflicting_lock_exists isShared db st s relid).calls).Nodup
    ∧ allAcqDontWait (xact_is_table_being_modified isShared db st s relid).calls = true
    ∧ acqModes (xact_is_table_being_modified isShared db st s relid).calls
        = [ExclusiveLock] := by
  have hb := bgwLoop_calls isShared db s relid st bgwProbeModes
  refine ⟨hb.2, hb.1, List.Nodup.sublist hb.1 bgwProbeModes_nodup, ?_, ?_⟩ <;>
    · unfold xact_is_table_being_modified ConditionalLockRelationOid
        lockAcquireDontWait
      by_cases h1 : holds st s (SetLocktagRelationOid isShared db relid) ExclusiveLock
      · simp [h1, acqModes, allAcqDontWait]
      · by_cases h2 : conflictingHeldByOther st s
            (SetLocktagRelationOid isShared db relid) ExclusiveLock
        · simp [h1, h2, acqModes, allAcqDontWait]
        · simp [h1, h2, acqModes, allAcqDontWait]

/-! ### Well-formed lock states and `xact_is_table_being_modified` -/

/-- A lock state is well formed when no two grants of different sessions on
the same tag conflict — the invariant the lock manager's granting
discipline maintains. -/
def wfLockState (st : LockState) : Prop :=
  ∀ g1 ∈ st.grants, ∀ g2 ∈ st.grants,
    g1.1 ≠ g2.1 → g1.2.1 = g2.2.1 → lockConflicts g1.2.2 g2.2.2 = false

instance (st : LockState) : Decidable (wfLockState st) := by
  unfold wfLockState; infer_instance

theorem holds_mem (st : LockState) (s : Nat) (tag : LockTag) (m : Nat)
    (h : holds st s tag m = true) : (s, tag, m) ∈ st.grants := by
  unfold holds holdsCount at h
  simp only [decide_eq_true_eq] at h
  exact List.count_pos_iff.mp h

theorem wf_no_conflict_of_holds (st : LockState) (s : Nat) (tag : LockTag)
    (m : Nat) (hwf : wfLockState st) (h : holds st s tag m = true) :
    conflictingHeldByOther st s tag m = false := by
  unfold conflictingHeldByOther
  rw [List.any_eq_false]
  intro g hg
  intro hp
  simp only [Bool.and_eq_true, bne_iff_ne, beq_iff_eq] at hp
  obtain ⟨⟨hne, htag⟩, hconf⟩ := hp
  have hw : lockConflicts m g.2.2 = false :=
    hwf (s, tag, m) (holds_mem st s tag m h) g hg (fun he => hne he.symm) htag.symm
  rw [hw] at hconf
  exact Bool.false_ne_true hconf

/-- Claim C5: `xact_is_table_being_modified` returns `true` exactly when
another session holds a lock conflicting with `ExclusiveLock` on the
relation (in any lock state the lock manager's granting discipline can
produce), and in either case the caller's net lock state is unchanged: a
successful conditional acquire is immediately released, a failed one
acquires nothing. -/
theorem xact_is_table_being_modified_spec (isShared : Nat → Bool) (db : Nat)
    (st : LockState) (s : Nat) (relid : Nat) (hwf : wfLockState st) :
    ((xact_is_table_being_modified isShared db st s relid).ret
        = conflictingHeldByOther st s (SetLocktagRelationOid isShared db relid)
            ExclusiveLock)
    ∧ (xact_is_table_being_modified isShared db st s relid).st = st := by
  unfold xact_is_table_being_modified ConditionalLockRelationOid
    lockAcquireDontWait
  by_cases h1 : holds st s (SetLocktagRelationOid isShared db relid) ExclusiveLock
  · have hconf := wf_no_conflict_of_holds st s
      (SetLocktagRelationOid isShared db relid) ExclusiveLock hwf h1
    simp [h1, hconf, UnlockRelationOid, lockRelease_addGrant]
  · by_cases h2 : conflictingHeldByOther st s
        (SetLocktagRelationOid isShared db relid) ExclusiveLock
    · simp [h1, h2]
    · simp [h1, h2, UnlockRelationOid, lockRelease_addGrant]

/-- Witness for C5 at a concrete state: session 1 holds `RowExclusiveLock`
(a row-writer's lock) on relation 7 of database 2, so session 0's probe
reports `true` and leaves the state unchanged. -/
theorem xact_is_table_being_modified_spec_witness :
    wfLockState ⟨[(1, ⟨2, 7⟩, 3)]⟩
    ∧ (((xact_is_table_being_modified (fun _ => false) 2 ⟨[(1, ⟨2, 7⟩, 3)]⟩ 0 7).ret
        = conflictingHeldByOther ⟨[(1, ⟨2, 7⟩, 3)]⟩ 0
            (SetLocktagRelationOid (fun _ => false) 2 7) ExclusiveLock)
      ∧ (xact_is_table_being_modified (fun _ => false) 2 ⟨[(1, ⟨2, 7⟩, 3)]⟩ 0 7).st
          = ⟨[(1, ⟨2, 7⟩, 3)]⟩) :=
  ⟨by decide,
    xact_is_table_being_modified_spec (fun _ => false) 2 ⟨[(1, ⟨2, 7⟩, 3)]⟩ 0 7
      (by decide)⟩

/-! ### Isolation level -/

/-- Claim C3 counterexample: at isolation level READ UNCOMMITTED — a level
other than (weaker than) READ COMMITTED — `xact_is_level_read_committed`
still returns `true`, so "true iff the level is exactly read-committed"
fails. -/
theorem xact_is_level_read_committed_counterexample :
    xact_is_level_read_committed XACT_READ_UNCOMMITTED = true
    ∧ XACT_READ_UNCOMMITTED ≠ XACT_READ_COMMITTED := by decide

/-- Claim C3 (amended): `xact_is_level_read_committed` returns `true` iff
the current isolation level is at or below READ COMMITTED; in particular it
is `false` exactly for REPEATABLE READ, SERIALIZABLE and any higher
level. -/
theorem xact_is_level_read_committed_iff (lvl : Nat) :
    xact_is_level_read_committed lvl = true ↔ lvl ≤ XACT_READ_COMMITTED := by
  by_cases h : lvl ≤ XACT_READ_COMMITTED <;>
    simp [xact_is_level_read_committed, h]

/-! ### Lock strengths of the data lock -/

/-- Claim C4 counterexample: the mode taken by `xact_lock_rel_data`
(`ShareLock`) does conflict with `RowExclusiveLock`, the mode taken by
row-level writers (INSERT/UPDATE/DELETE), contradicting the claim that it
does not. -/
theorem xact_lock_rel_data_mode_counterexample :
    lockConflicts xact_lock_rel_data_mode RowExclusiveLock = true := by decide

/-- Claim C4 (amended): the mode taken by `xact_lock_rel_data` conflicts
with exclusive structural changes (`AccessExclusiveLock`) and also
conflicts with the mode acquired by concurrent row-level writers
(`RowExclusiveLock`). -/
theorem xact_lock_rel_data_mode_conflicts :
    lockConflicts xact_lock_rel_data_mode AccessExclusiveLock = true
    ∧ lockConflicts xact_lock_rel_data_mode RowExclusiveLock = true := by decide

/-! ### The lock manager's granting discipline as a transition system -/

theorem lockConflicts_big_left (a b : Nat) (h : 9 ≤ a) :
    lockConflicts a b = false := by
  rcases a with _|_|_|_|_|_|_|_|_|n
  · rfl
  all_goals first
    | rfl
    | omega

theorem lockConflicts_big_right (a b : Nat) (h : 9 ≤ b) :
    lockConflicts a b = false := by
  by_cases ha : a ≤ 8
  · interval_cases a <;>
      first
        | rfl
        | (simp only [lockConflicts, Bool.or_eq_false_iff, beq_eq_false_iff_ne]
           omega)
  · exact lockConflicts_big_left a b (by omega)

theorem lockConflicts_symm (a b : Nat) :
    lockConflicts a b = lockConflicts b a := by
  by_cases ha : a ≤ 8
  · by_cases hb : b ≤ 8
    · interval_cases a <;> interval_cases b <;> rfl
    · rw [lockConflicts_big_right a b (by omega),
          lockConflicts_big_left b a (by omega)]
  · rw [lockConflicts_big_left a b (by omega),
        lockConflicts_big_right b a (by omega)]

/-- One transition of the lock manager: a session is granted a lock it
conditionally or blockingly requested — which the lock manager only does
when no other session holds a conflicting mode, or when the session already
holds the very same mode (reference-count increment) — or a session
releases one reference. -/
inductive LockStep : LockState → LockState → Prop
  | acquireOk (st : LockState) (s : Nat) (tag : LockTag) (m : Nat) :
      conflictingHeldByOther st s tag m = false →
      LockStep st (addGrant st s tag m)
  | acquireHeld (st : LockState) (s : Nat) (tag : LockTag) (m : Nat) :
      holds st s tag m = true →
      LockStep st (addGrant st s tag m)
  | release (st : LockState) (s : Nat) (tag : LockTag) (m : Nat) :
      LockStep st (lockRelease st s tag m)

/-- A lock state is reachable when a sequence of grants and releases
produces it from the empty state. -/
def ReachableLockState (st : LockState) : Prop :=
  Relation.ReflTransGen LockStep emptyLockState st

theorem wf_empty : wfLockState emptyLockState := by
  intro g1 h1
  simp [emptyLockState] at h1

theorem wf_addGrant_ok (st : LockState) (s : Nat) (tag : LockTag) (m : Nat)
    (hwf : wfLockState st) (hok : conflictingHeldByOther st s tag m = false) :
    wfLockState (addGrant st s tag m) := by
  intro g1 h1 g2 h2 hne htag
  unfold addGrant at h1 h2
  simp only [List.mem_cons] at h1 h2
  unfold conflictingHeldByOther at hok
  rw [List.any_eq_false] at hok
  rcases h1 with rfl | h1 <;> rcases h2 with rfl | h2
  · exact absurd rfl hne
  · have hother := hok g2 h2
    simp only [Bool.and_eq_true, bne_iff_ne, beq_iff_eq] at hother
    show lockConflicts m g2.2.2 = false
    cases hc : lockConflicts m g2.2.2 with
    | false => rfl
    | true =>
        exact absurd ⟨⟨fun he => hne he.symm, htag.symm⟩, hc⟩ hother
  · have hother := hok g1 h1
    simp only [Bool.and_eq_true, bne_iff_ne, beq_iff_eq] at hother
    show lockConflicts g1.2.2 m = false
    rw [lockConflicts_symm]
    cases hc : lockConflicts m g1.2.2 with
    | false => rfl
    | true =>
        exact absurd ⟨⟨hne, htag⟩, hc⟩ hother
  · exact hwf g1 h1 g2 h2 hne htag

theorem wf_addGrant_held (st : LockState) (s : Nat) (tag : LockTag) (m : Nat)
    (hwf : wfLockState st) (hheld : holds st s tag m = true) :
    wfLockState (addGrant st s tag m) := by
  have hmem := holds_mem st s tag m hheld
  intro g1 h1 g2 h2 hne htag
  unfold addGrant at h1 h2
  simp only [List.mem_cons] at h1 h2
  rcases h1 with rfl | h1 <;> rcases h2 with rfl | h2
  · exact absurd rfl hne
  · exact hwf (s, tag, m) hmem g2 h2 hne htag
  · exact hwf g1 h1 (s, tag, m) hmem hne htag
  · exact hwf g1 h1 g2 h2 hne htag

theorem wf_lockRelease (st : LockState) (s : Nat) (tag : LockTag) (m : Nat)
    (hwf : wfLockState st) : wfLockState (lockRelease st s tag m) := by
  intro g1 h1 g2 h2
  unfold lockRelease at h1 h2
  exact hwf g1 (List.mem_of_mem_erase h1) g2 (List.mem_of_mem_erase h2)

theorem wf_step (st st' : LockState) (hstep : LockStep st st')
    (hwf : wfLockState st) : wfLockState st' := by
  cases hstep with
  | acquireOk s tag m hok => exact wf_addGrant_ok st s tag m hwf hok
  | acquireHeld s tag m hheld => exact wf_addGrant_held st s tag m hwf hheld
  | release s tag m => exact wf_lockRelease st s tag m hwf

theorem reachable_wf (st : LockState) (h : ReachableLockState st) :
    wfLockState st := by
  induction h with
  | refl => exact wf_empty
  | tail _ hstep ih => exact wf_step _ _ hstep ih

/-- Claim C7: the mode taken by `xact_lock_partitioned_rel`
(`ShareUpdateExclusiveLock`) conflicts with itself while not conflicting
with ordinary reads (`AccessShareLock`); consequently in every lock state
the lock manager's granting discipline can reach, no two distinct sessions
simultaneously hold the partition-edit lock on the same relation. -/
theorem edit_lock_mutual_exclusion (st : LockState) (tag : LockTag)
    (s1 s2 : Nat) (hreach : ReachableLockState st) (hne : s1 ≠ s2) :
    lockConflicts xact_lock_partitioned_rel_mode xact_lock_partitioned_rel_mode = true
    ∧ lockConflicts xact_lock_partitioned_rel_mode AccessShareLock = false
    ∧ ¬(holds st s1 tag xact_lock_partitioned_rel_mode = true
        ∧ holds st s2 tag xact_lock_partitioned_rel_mode = true) := by
  refine ⟨by decide, by decide, ?_⟩
  rintro ⟨h1, h2⟩
  have hwf := reachable_wf st hreach
  have hcontra : lockConflicts ShareUpdateExclusiveLock ShareUpdateExclusiveLock
      = false :=
    hwf (s1, tag, xact_lock_partitioned_rel_mode) (holds_mem _ _ _ _ h1)
      (s2, tag, xact_lock_partitioned_rel_mode) (holds_mem _ _ _ _ h2) hne rfl
  exact absurd hcontra (by decide)

/-- Witness for C7: after session 0 takes the edit lock on relation 7 of
database 2 from the empty state, the reached state has no second session
holding it. -/
theorem edit_lock_mutual_exclusion_witness :
    ReachableLockState (addGrant emptyLockState 0 ⟨2, 7⟩ ShareUpdateExclusiveLock)
    ∧ (0 : Nat) ≠ 1
    ∧ (lockConflicts xact_lock_partitioned_rel_mode xact_lock_partitioned_rel_mode = true
       ∧ lockConflicts xact_lock_partitioned_rel_mode AccessShareLock = false
       ∧ ¬(holds (addGrant emptyLockState 0 ⟨2, 7⟩ ShareUpdateExclusiveLock) 0
              ⟨2, 7⟩ xact_lock_partitioned_rel_mode = true
           ∧ holds (addGrant emptyLockState 0 ⟨2, 7⟩ ShareUpdateExclusiveLock) 1
              ⟨2, 7⟩ xact_lock_partitioned_rel_mode = true)) :=
  ⟨Relation.ReflTransGen.single
      (LockStep.acquireOk emptyLockState 0 ⟨2, 7⟩ ShareUpdateExclusiveLock (by decide)),
    by decide,
    edit_lock_mutual_exclusion (addGrant emptyLockState 0 ⟨2, 7⟩ ShareUpdateExclusiveLock)
      ⟨2, 7⟩ 0 1
      (Relation.ReflTransGen.single
        (LockStep.acquireOk emptyLockState 0 ⟨2, 7⟩ ShareUpdateExclusiveLock (by decide)))
      (by decide)⟩

/-! ### `PathmanState` (`pathman.h:65-71`) -/

/-- An `LWLock *` handle, embedded as an abstract identifier. -/
abbrev LWLockPtr := Nat

/-- Modelled from the spec: `DsmArray` is declared in `dsm_array.h`, which
is not among the sources here; per the spec it backs "a shared,
cross-process mapping from database identifier to that database's
partition-info cache", which we embed as an association list from database
Oid to a cache handle. -/
structure DsmArray where
  entries : List (Nat × Nat)
deriving DecidableEq, Repr

/-- `PathmanState` (`pathman.h:65-71`): pg_pathman's global state — three
LWLock pointers (`dsm_init_lock`, `load_config_lock`,
`edit_partitions_lock`) and the `databases` DsmArray. -/
structure PathmanState where
  dsm_init_lock : LWLockPtr
  load_config_lock : LWLockPtr
  edit_partitions_lock : LWLockPtr
  databases : DsmArray
deriving DecidableEq, Repr

/-- The contents of a `PathmanState`: its three locks and its databases
mapping, in declaration order. -/
def pathmanStateRepr (ps : PathmanState) :
    LWLockPtr × LWLockPtr × LWLockPtr × DsmArray :=
  (ps.dsm_init_lock, ps.load_config_lock, ps.edit_partitions_lock, ps.databases)

/-- Claim C9: the process-wide `PathmanState` singleton consists of exactly
three locks — guarding shared-state initialization, configuration reload
and partition-set edits — plus the database-to-cache mapping, and nothing
else: reading off those four fields is a bijection, so the state carries no
further coordination state. -/
theorem pathmanState_exactly_three_locks_and_map :
    Function.Bijective pathmanStateRepr := by
  constructor
  · intro a b hab
    cases a
    cases b
    simp only [pathmanStateRepr, Prod.mk.injEq] at hab
    obtain ⟨h1, h2, h3, h4⟩ := hab
    subst h1
    subst h2
    subst h3
    subst h4
    rfl
  · intro t
    exact ⟨⟨t.1, t.2.1, t.2.2.1, t.2.2.2⟩, rfl⟩

/-! ### Lock tag scoping (`SetLocktagRelationOid`) -/

/-- Claim C10: the lock tag built by `SetLocktagRelationOid` carries the
invalid (zero) database id for a shared catalog relation and the session's
own database id otherwise; hence two sessions in different databases build
the same tag for a shared relation (contending on one lock) and different
tags for a non-shared relation (locks scoped per database). -/
theorem SetLocktagRelationOid_spec (isShared : Nat → Bool)
    (db1 db2 relid : Nat) :
    ((SetLocktagRelationOid isShared db1 relid).dbid
        = if isShared relid then InvalidOid else db1)
    ∧ (isShared relid = true →
        SetLocktagRelationOid isShared db1 relid
          = SetLocktagRelationOid isShared db2 relid)
    ∧ (isShared relid = false → db1 ≠ db2 →
        SetLocktagRelationOid isShared db1 relid
          ≠ SetLocktagRelationOid isShared db2 relid) := by
  refine ⟨rfl, ?_, ?_⟩
  · intro hs
    simp [SetLocktagRelationOid, hs]
  · intro hs hne
    simp only [SetLocktagRelationOid, hs, Bool.false_eq_true, if_false, ne_eq,
      LockTag.mk.injEq, not_and]
    intro h
    exact absurd h hne

/-- Witness for C10: with shared relations being exactly relation 100,
sessions of databases 2 and 3 build one common tag for relation 100 but
distinct tags for relation 7. -/
theorem SetLocktagRelationOid_spec_witness :
    SetLocktagRelationOid (fun r => r == 100) 2 100
        = SetLocktagRelationOid (fun r => r == 100) 3 100
    ∧ SetLocktagRelationOid (fun r => r == 100) 2 7
        ≠ SetLocktagRelationOid (fun r => r == 100) 3 7 :=
  ⟨(SetLocktagRelationOid_spec (fun r => r == 100) 2 3 100).2.1 (by decide),
    (SetLocktagRelationOid_spec (fun r => r == 100) 2 3 7).2.2 (by decide)
      (by decide)⟩

/-! ### Range search (`search_range_partition_eq`) -/

/-- One partition's half-open interval `[min, max)` plus the partition's
Oid (`RangeEntry`); partitioning-key values are embedded as integers, the
comparison function's order being their order. -/
structure RangeEntry where
  min : Int
  max : Int
  child_oid : Nat
deriving DecidableEq, Repr

/-- `search_rangerel_result` (`pathman.h:74-79`), with the found entry
attached to `FOUND` (the C function returns it through its `out_re`
parameter). -/
inductive search_rangerel_result where
  | SEARCH_RANGEREL_OUT_OF_RANGE
  | SEARCH_RANGEREL_GAP
  | SEARCH_RANGEREL_FOUND (re : RangeEntry)
deriving DecidableEq, Repr

/-- Modelled from the spec: the implementation of `search_range_partition_eq`
(declared at `pathman.h:117-120`) is not among the sources here.  Spec §4.2:
the search returns `FOUND` with the entry whose `[min, max)` contains the
value, `GAP` when the value falls in a coverage hole between two entries,
and `OUT_OF_RANGE` when it is below the first interval or at/above the last
interval's upper bound.  The spec prescribes binary search over the sorted
sequence; this realizes the same input/output function by structural
recursion. -/
def search_range_partition_eq (value : Int) :
    List RangeEntry → search_rangerel_result
  | [] => .SEARCH_RANGEREL_OUT_OF_RANGE
  | re :: rest =>
      if value < re.min then .SEARCH_RANGEREL_OUT_OF_RANGE
      else if value < re.max then .SEARCH_RANGEREL_FOUND re
      else
        match rest with
        | [] => .SEARCH_RANGEREL_OUT_OF_RANGE
        | re2 :: _ =>
            if value < re2.min then .SEARCH_RANGEREL_GAP
            else search_range_partition_eq value rest

/-- The `RangeEntry` sequence invariant: sorted ascending and
non-overlapping (each interval ends no later than the next begins), every
interval well formed (`min ≤ max`). -/
abbrev rangesWf (rs : List RangeEntry) : Prop :=
  List.Chain' (fun a b => a.max ≤ b.min) rs ∧ ∀ re ∈ rs, re.min ≤ re.max

/-- The entry's half-open interval `[min, max)` contains the value. -/
abbrev entryContains (re : RangeEntry) (v : Int) : Prop :=
  re.min ≤ v ∧ v < re.max

/-- Some entry of the sequence contains the value. -/
abbrev coveredBy (rs : List RangeEntry) (v : Int) : Prop :=
  ∃ re ∈ rs, entryContains re v

/-- The value lies between two consecutive entries — at or above the upper
bound of one and strictly below the lower bound of the next (the half-open
convention's reading of "strictly between two entries' bounds"). -/
abbrev inGapOf (rs : List RangeEntry) (v : Int) : Prop :=
  ∃ p ∈ rs.zip rs.tail, p.1.max ≤ v ∧ v < p.2.min

theorem rangesWf_tail (re : RangeEntry) (rest : List RangeEntry)
    (h : rangesWf (re :: rest)) : rangesWf rest :=
  ⟨h.1.tail, fun e he => h.2 e (List.mem_cons_of_mem re he)⟩

theorem head_max_le_min_of_mem (re : RangeEntry) (rest : List RangeEntry)
    (hwf : rangesWf (re :: rest)) : ∀ re' ∈ rest, re.max ≤ re'.min := by
  induction rest generalizing re with
  | nil => intro re' h; cases h
  | cons re2 rest2 ih =>
      intro re' hm
      rcases List.mem_cons.mp hm with rfl | hm2
      · exact (List.chain'_cons.mp hwf.1).1
      · have h2 : rangesWf (re2 :: rest2) := rangesWf_tail re _ hwf
        have h3 := ih re2 h2 re' hm2
        have h4 : re.max ≤ re2.min := (List.chain'_cons.mp hwf.1).1
        have h5 : re2.min ≤ re2.max := hwf.2 re2 (by simp)
        omega

theorem not_covered_of_lt_head (re : RangeEntry) (rest : List RangeEntry)
    (hwf : rangesWf (re :: rest)) (v : Int) (hv : v < re.min) :
    ¬ coveredBy (re :: rest) v := by
  rintro ⟨re', hm, hc⟩
  rcases List.mem_cons.mp hm with rfl | hm2
  · have := hc.1
    omega
  · have h3 := head_max_le_min_of_mem re rest hwf re' hm2
    have h5 : re.min ≤ re.max := hwf.2 re (by simp)
    have := hc.1
    omega

theorem not_gap_of_lt_head (re : RangeEntry) (rest : List RangeEntry)
    (hwf : rangesWf (re :: rest)) (v : Int) (hv : v < re.min) :
    ¬ inGapOf (re :: rest) v := by
  rintro ⟨⟨a, b⟩, hp, hle, hlt⟩
  have hle' : a.max ≤ v := hle
  have hmem := (List.of_mem_zip hp).1
  rcases List.mem_cons.mp hmem with rfl | hm2
  · have h5 : a.min ≤ a.max := hwf.2 a (by simp)
    omega
  · have h3 := head_max_le_min_of_mem re rest hwf a hm2
    have h5 : re.min ≤ re.max := hwf.2 re (by simp)
    have h6 : a.min ≤ a.max := hwf.2 a (List.mem_cons_of_mem re hm2)
    omega

/-- Claim C6: over every sorted, non-overlapping `RangeEntry` sequence and
every value, the search returns `FOUND` exactly when some entry's half-open
`[min, max)` contains the value (and then returns that entry), `GAP`
exactly when no entry contains the value and it lies between the bounds of
two consecutive entries, and `OUT_OF_RANGE` in every other case (value
below the first interval, at/above the last interval's upper bound, or an
empty sequence). -/
theorem search_range_partition_eq_spec (v : Int) (rs : List RangeEntry)
    (hwf : rangesWf rs) :
    ((∃ re, search_range_partition_eq v rs
          = search_rangerel_result.SEARCH_RANGEREL_FOUND re
        ∧ re ∈ rs ∧ entryContains re v) ↔ coveredBy rs v)
    ∧ (search_range_partition_eq v rs
          = search_rangerel_result.SEARCH_RANGEREL_GAP
        ↔ (¬ coveredBy rs v ∧ inGapOf rs v))
    ∧ (search_range_partition_eq v rs
          = search_rangerel_result.SEARCH_RANGEREL_OUT_OF_RANGE
        ↔ (¬ coveredBy rs v ∧ ¬ inGapOf rs v)) := by
  revert hwf
  induction rs with
  | nil =>
      intro _
      refine ⟨?_, ?_, ?_⟩
      · constructor
        · rintro ⟨re, _, hm, _⟩
          cases hm
        · rintro ⟨re, hm, _⟩
          cases hm
      · constructor
        · intro h
          exact absurd h (by simp [search_range_partition_eq])
        · rintro ⟨_, ⟨p, hp, _⟩⟩
          simp at hp
      · constructor
        · intro _
          constructor
          · rintro ⟨re, hm, _⟩
            cases hm
          · rintro ⟨p, hp, _⟩
            simp at hp
        · intro _
          rfl
  | cons re rest ih =>
      intro hwf
      by_cases h1 : v < re.min
      · have hres : search_range_partition_eq v (re :: rest)
            = search_rangerel_result.SEARCH_RANGEREL_OUT_OF_RANGE := by
          simp [search_range_partition_eq, h1]
        have hncov := not_covered_of_lt_head re rest hwf v h1
        have hngap := not_gap_of_lt_head re rest hwf v h1
        rw [hres]
        refine ⟨?_, ?_, ?_⟩
        · exact iff_of_false (by rintro ⟨re', h, _⟩; simp at h) hncov
        · exact iff_of_false (by simp) (fun h => hngap h.2)
        · exact iff_of_true rfl ⟨hncov, hngap⟩
      · by_cases h2 : v < re.max
        · have hres : search_range_partition_eq v (re :: rest)
              = search_rangerel_result.SEARCH_RANGEREL_FOUND re := by
            simp [search_range_partition_eq, h1, h2]
          have hcov : coveredBy (re :: rest) v :=
            ⟨re, by simp, ⟨by omega, h2⟩⟩
          rw [hres]
          refine ⟨?_, ?_, ?_⟩
          · exact iff_of_true ⟨re, rfl, by simp, ⟨by omega, h2⟩⟩ hcov
          · exact iff_of_false (by simp) (fun h => absurd hcov h.1)
          · exact iff_of_false (by simp) (fun h => absurd hcov h.1)
        · rcases rest with _ | ⟨re2, rest2⟩
          · have hres : search_range_partition_eq v [re]
                = search_rangerel_result.SEARCH_RANGEREL_OUT_OF_RANGE := by
              simp [search_range_partition_eq, h1, h2]
            have hncov : ¬ coveredBy [re] v := by
              rintro ⟨re', hm, hc⟩
              rcases List.mem_cons.mp hm with rfl | hm2
              · exact absurd hc.2 h2
              · cases hm2
            have hngap : ¬ inGapOf [re] v := by
              rintro ⟨p, hp, _⟩
              simp at hp
            rw [hres]
            refine ⟨?_, ?_, ?_⟩
            · exact iff_of_false (by rintro ⟨re', h, _⟩; simp at h) hncov
            · exact iff_of_false (by simp) (fun h => hngap h.2)
            · exact iff_of_true rfl ⟨hncov, hngap⟩
          · by_cases h3 : v < re2.min
            · have hres : search_range_partition_eq v (re :: re2 :: rest2)
                  = search_rangerel_result.SEARCH_RANGEREL_GAP := by
                simp [search_range_partition_eq, h1, h2, h3]
              have hncov : ¬ coveredBy (re :: re2 :: rest2) v := by
                rintro ⟨re', hm, hc⟩
                rcases List.mem_cons.mp hm with rfl | hm2
                · exact absurd hc.2 h2
                · have hwf2 : rangesWf (re2 :: rest2) := rangesWf_tail re _ hwf
                  rcases List.mem_cons.mp hm2 with rfl | hm3
                  · have := hc.1
                    omega
                  · have h4 := head_max_le_min_of_mem re2 rest2 hwf2 re' hm3
                    have h5 : re2.min ≤ re2.max := hwf2.2 re2 (by simp)
                    have := hc.1
                    omega
              have hgap : inGapOf (re :: re2 :: rest2) v := by
                refine ⟨(re, re2), ?_, (by omega : re.max ≤ v), h3⟩
                simp [List.zip_cons_cons]
              rw [hres]
              refine ⟨?_, ?_, ?_⟩
              · exact iff_of_false (by rintro ⟨re', h, _⟩; simp at h) hncov
              · exact iff_of_true rfl ⟨hncov, hgap⟩
              · exact iff_of_false (by simp) (fun h => absurd hgap h.2)
            · have hres : search_range_partition_eq v (re :: re2 :: rest2)
                  = search_range_partition_eq v (re2 :: rest2) := by
                simp [search_range_partition_eq, h1, h2, h3]
              have hwf2 : rangesWf (re2 :: rest2) := rangesWf_tail re _ hwf
              obtain ⟨ihF, ihG, ihO⟩ := ih hwf2
              have hcovE : coveredBy (re :: re2 :: rest2) v
                  ↔ coveredBy (re2 :: rest2) v := by
                constructor
                · rintro ⟨re', hm, hc⟩
                  rcases List.mem_cons.mp hm with rfl | hm2
                  · exact absurd hc.2 h2
                  · exact ⟨re', hm2, hc⟩
                · rintro ⟨re', hm, hc⟩
                  exact ⟨re', List.mem_cons_of_mem re hm, hc⟩
              have hgapE : inGapOf (re :: re2 :: rest2) v
                  ↔ inGapOf (re2 :: rest2) v := by
                constructor
                · rintro ⟨p, hp, hle, hlt⟩
                  rw [List.tail_cons, List.zip_cons_cons] at hp
                  rcases List.mem_cons.mp hp with rfl | hp2
                  · exact absurd hlt h3
                  · exact ⟨p, hp2, hle, hlt⟩
                · rintro ⟨p, hp, hle, hlt⟩
                  refine ⟨p, ?_, hle, hlt⟩
                  rw [List.tail_cons, List.zip_cons_cons]
                  exact List.mem_cons_of_mem (re, re2) hp
              rw [hres]
              refine ⟨?_, ?_, ?_⟩
              · constructor
                · rintro ⟨re', hr, hm, hc⟩
                  rcases List.mem_cons.mp hm with rfl | hm2
                  · exact absurd hc.2 h2
                  · exact hcovE.mpr (ihF.mp ⟨re', hr, hm2, hc⟩)
                · intro hc
                  obtain ⟨re', hr, hm, hc'⟩ := ihF.mpr (hcovE.mp hc)
                  exact ⟨re', hr, List.mem_cons_of_mem re hm, hc'⟩
              · constructor
                · intro hg
                  obtain ⟨hnc, hgap⟩ := ihG.mp hg
                  exact ⟨fun hc => hnc (hcovE.mp hc), hgapE.mpr hgap⟩
                · rintro ⟨hnc, hgap⟩
                  exact ihG.mpr ⟨fun hc => hnc (hcovE.mpr hc), hgapE.mp hgap⟩
              · constructor
                · intro hg
                  obtain ⟨hnc, hgap⟩ := ihO.mp hg
                  exact ⟨fun hc => hnc (hcovE.mp hc), fun hgp => hgap (hgapE.mp hgp)⟩
                · rintro ⟨hnc, hgap⟩
                  exact ihO.mpr
                    ⟨fun hc => hnc (hcovE.mpr hc), fun hgp => hgap (hgapE.mpr hgp)⟩

/-- Witness for C6 at a concrete sequence with a coverage hole:
`[0,10) ↦ 1, [20,30) ↦ 2` and value 15 — the search reports `GAP`, no entry
contains 15, and 15 lies between the two entries. -/
theorem search_range_partition_eq_spec_witness :
    rangesWf [⟨0, 10, 1⟩, ⟨20, 30, 2⟩]
    ∧ (((∃ re, search_range_partition_eq 15 [⟨0, 10, 1⟩, ⟨20, 30, 2⟩]
            = search_rangerel_result.SEARCH_RANGEREL_FOUND re
          ∧ re ∈ [⟨0, 10, 1⟩, ⟨20, 30, 2⟩] ∧ entryContains re 15)
        ↔ coveredBy [⟨0, 10, 1⟩, ⟨20, 30, 2⟩] 15)
      ∧ (search_range_partition_eq 15 [⟨0, 10, 1⟩, ⟨20, 30, 2⟩]
            = search_rangerel_result.SEARCH_RANGEREL_GAP
          ↔ (¬ coveredBy [⟨0, 10, 1⟩, ⟨20, 30, 2⟩] 15
             ∧ inGapOf [⟨0, 10, 1⟩, ⟨20, 30, 2⟩] 15))
      ∧ (search_range_partition_eq 15 [⟨0, 10, 1⟩, ⟨20, 30, 2⟩]
            = search_rangerel_result.SEARCH_RANGEREL_OUT_OF_RANGE
          ↔ (¬ coveredBy [⟨0, 10, 1⟩, ⟨20, 30, 2⟩] 15
             ∧ ¬ inGapOf [⟨0, 10, 1⟩, ⟨20, 30, 2⟩] 15))) :=
  ⟨⟨List.chain'_pair.mpr (by decide), by decide⟩,
    search_range_partition_eq_spec 15 [⟨0, 10, 1⟩, ⟨20, 30, 2⟩]
      ⟨List.chain'_pair.mpr (by decide), by decide⟩⟩

end PgPathman
